import Mathlib

/-!
Verification of `src/libtomcrypt/pk/dsa/dsa_sign_hash.c` (DSA signing).

The two C functions `dsa_sign_hash_raw` and `dsa_sign_hash` are embedded
shallowly.  Big integers are `Nat`.  The external collaborators that the C
file calls but does not define (the big-integer engine `mp_*`, the random
source `get_random_bytes`, the DER encoder, `XMALLOC`) are modelled as
explicit oracles and small definitions, so that every control path of the C
code — including engine-failure and allocation-failure paths — exists in the
embedding.  The unbounded `retry` loop of the C code is embedded with a fuel
parameter; a result of `none` means the loop was still running when the fuel
ran out (the C code has not returned on that prefix of the execution).

Pointer null checks (`LTC_ARGCHK`) are not modelled: the shallow embedding
has no null pointers.
-/

/-- Error codes of the return values used by this file.  The `tomcrypt.h`
header defining the numeric values is not part of the sources; the
constructors mirror the identifiers the C file uses.  `CRYPT_ENGINE_ERR`
stands for any further code an arithmetic-engine call may propagate. -/
inductive Err where
  | CRYPT_OK
  | CRYPT_INVALID_ARG
  | CRYPT_PK_NOT_PRIVATE
  | CRYPT_MEM
  | CRYPT_BUFFER_OVERFLOW
  | CRYPT_ENGINE_ERR (code : Nat)
deriving DecidableEq

/-- Observable lifecycle events of the nonce byte buffer `buf` in
`dsa_sign_hash_raw`: `XMALLOC` (line 51), `zeromem` (line 97, under
`#ifdef LTC_CLEAN_STACK`) and `XFREE` (line 99). -/
inductive Ev where
  | allocBuf
  | zeroBuf
  | freeBuf
deriving DecidableEq

/-- The fields of `dsa_key` read by `dsa_sign_hash_raw`: the key type tag,
`qord` (byte length of the group order) and the parameters `p`, `q`, `g` and
the private scalar `x`. -/
structure DsaKey where
  type : Nat
  qord : Nat
  p : Nat
  q : Nat
  g : Nat
  x : Nat
deriving DecidableEq

/-- Key-type tag `PK_PUBLIC` (value from the missing `tomcrypt.h`; only
equality with `PK_PRIVATE` matters). -/
def PK_PUBLIC : Nat := 0

/-- Key-type tag `PK_PRIVATE`. -/
def PK_PRIVATE : Nat := 1

/-- Modelled from the spec: the "fixed maximum supported size" of the group
order in bytes, `LTC_MDSA_MAX_GROUP` of the missing `tomcrypt_pk.h`.  The
concrete value is immaterial to every claim; the historical value is used. -/
def LTC_MDSA_MAX_GROUP : Nat := 512

/-- Environment of one call: the outcomes of the external collaborators.
`mallocOk` is whether `XMALLOC` succeeds; `initRes` is the return value of
`mp_init_multi(&k,&kinv,&tmp,NULL)`; `init2Res` that of
`mp_init_multi(&r,&s,NULL)` in `dsa_sign_hash`; `buf0` is the (arbitrary)
content of the freshly malloc'ed, uninitialized nonce buffer; `rand n` is
what the `n`-th call of the random source produces (`none` models a source
failure, which the `void` call site cannot observe); `fault i` is an error
injected into the `i`-th fallible arithmetic-engine call (`some e` with
`e ≠ CRYPT_OK` makes that call report `e`). -/
structure Oracle where
  mallocOk : Bool
  initRes : Err
  init2Res : Err
  buf0 : List Nat
  rand : Nat → Option (List Nat)
  fault : Nat → Option Err

/-- Unsigned big-endian value of a byte string, as `mp_read_unsigned_bin`
computes it. -/
def beInt (bs : List Nat) : Nat := bs.foldl (fun a b => a * 256 + b) 0

/-- Overwrite the first `len` bytes of `buf` with `bs` (the effect of a
successful `get_random_bytes(buf, len)`). -/
def writeBytes (buf bs : List Nat) (len : Nat) : List Nat :=
  bs.take len ++ buf.drop len

/-- The call `get_random_bytes(buf, len)` (line 63).  The kernel interface
returns `void`: when the modelled source fails (`rand ri = none`) the call
site cannot tell, and the buffer simply keeps its previous content. -/
def get_random_bytes (o : Oracle) (ri : Nat) (buf : List Nat) (len : Nat) : List Nat :=
  match o.rand ri with
  | some bs => writeBytes buf bs len
  | none => buf

/-- Wrap the `i`-th fallible arithmetic-engine call: an injected fault
(other than `CRYPT_OK`) replaces the genuine outcome `v`. -/
def engineStep {α : Type} (o : Oracle) (i : Nat) (v : Except Err α) : Except Err α :=
  match o.fault i with
  | some e => if e = Err.CRYPT_OK then v else .error e
  | none => v

/-- Modelled from the spec: the modular-inverse operation of the external
big-integer engine — the value `t < n` with `a * t ≡ 1 (mod n)` when it
exists. -/
def invmod (a n : Nat) : Option Nat :=
  (List.range n).find? (fun t => a * t % n == 1)

/-- Modelled from the spec: `mp_invmod` of the engine; reports an error when
no inverse exists (`gcd ≠ 1` or degenerate modulus). -/
def mp_invmod (a n : Nat) : Except Err Nat :=
  match invmod a n with
  | some t => .ok t
  | none => .error Err.CRYPT_INVALID_ARG

/-- Modelled from the spec: `mp_exptmod` of the engine; fails on a zero
modulus. -/
def mp_exptmod (b e m : Nat) : Except Err Nat :=
  if m = 0 then .error Err.CRYPT_INVALID_ARG else .ok (b ^ e % m)

/-- Modelled from the spec: `mp_mod` of the engine; fails on a zero
modulus. -/
def mp_mod (a n : Nat) : Except Err Nat :=
  if n = 0 then .error Err.CRYPT_INVALID_ARG else .ok (a % n)

/-- Modelled from the spec: `mp_mulmod` of the engine; fails on a zero
modulus. -/
def mp_mulmod (a b n : Nat) : Except Err Nat :=
  if n = 0 then .error Err.CRYPT_INVALID_ARG else .ok (a * b % n)

/-- Mutable state threaded through the retry loop of `dsa_sign_hash_raw`:
the nonce buffer content, the index of the next random draw, the index of
the next fallible engine call, and the current contents of the caller's
output integers `r` and `s`. -/
structure LoopSt where
  buf : List Nat
  ri : Nat
  ei : Nat
  r : Nat
  s : Nat
deriving DecidableEq

/-- Outcome of one pass from the `retry` label (line 59) to either a
`goto retry`, a `goto error` with code `e`, or `err = CRYPT_OK` (line 92).
`k` records the nonce accepted by the do-while loop, when one was. -/
inductive IterRes where
  | retry (st : LoopSt)
  | fail (e : Err) (st : LoopSt) (k : Option Nat)
  | done (st : LoopSt) (k : Nat)
deriving DecidableEq

/-- One pass of the body of `dsa_sign_hash_raw` from the `retry` label
(lines 59–92): draw random bytes, read `k`, check `k > 1`, check
`gcd(k,q) = 1`, then `kinv = 1/k mod q`, `r = g^k mod p mod q` (retry if
zero), `s = (in + x*r)/k mod q` (retry if zero). -/
def signIter (o : Oracle) (key : DsaKey) (inB : List Nat) (st : LoopSt) : IterRes :=
  let buf1 := get_random_bytes o st.ri st.buf key.qord
  let st1 : LoopSt := { st with buf := buf1, ri := st.ri + 1, ei := st.ei + 1 }
  match engineStep o st.ei (.ok (beInt (buf1.take key.qord))) with
  | .error e => .fail e st1 none
  | .ok k =>
    if k ≤ 1 then .retry st1
    else
      match engineStep o st1.ei (.ok (Nat.gcd k key.q)) with
      | .error e => .fail e { st1 with ei := st1.ei + 1 } none
      | .ok d =>
        let st2 := { st1 with ei := st1.ei + 1 }
        if d ≠ 1 then .retry st2
        else
          match engineStep o st2.ei (mp_invmod k key.q) with
          | .error e => .fail e { st2 with ei := st2.ei + 1 } (some k)
          | .ok kinv =>
            let st3 := { st2 with ei := st2.ei + 1 }
            match engineStep o st3.ei (mp_exptmod key.g k key.p) with
            | .error e => .fail e { st3 with ei := st3.ei + 1 } (some k)
            | .ok r1 =>
              let st4 := { st3 with ei := st3.ei + 1, r := r1 }
              match engineStep o st4.ei (mp_mod r1 key.q) with
              | .error e => .fail e { st4 with ei := st4.ei + 1 } (some k)
              | .ok r2 =>
                let st5 := { st4 with ei := st4.ei + 1, r := r2 }
                if r2 = 0 then .retry st5
                else
                  match engineStep o st5.ei (.ok (beInt inB)) with
                  | .error e => .fail e { st5 with ei := st5.ei + 1 } (some k)
                  | .ok h =>
                    let st6 := { st5 with ei := st5.ei + 1 }
                    match engineStep o st6.ei (.ok (key.x * r2)) with
                    | .error e => .fail e { st6 with ei := st6.ei + 1 } (some k)
                    | .ok s1 =>
                      let st7 := { st6 with ei := st6.ei + 1, s := s1 }
                      match engineStep o st7.ei (.ok (s1 + h)) with
                      | .error e => .fail e { st7 with ei := st7.ei + 1 } (some k)
                      | .ok s2 =>
                        let st8 := { st7 with ei := st7.ei + 1, s := s2 }
                        match engineStep o st8.ei (mp_mulmod s2 kinv key.q) with
                        | .error e => .fail e { st8 with ei := st8.ei + 1 } (some k)
                        | .ok s3 =>
                          let st9 := { st8 with ei := st8.ei + 1, s := s3 }
                          if s3 = 0 then .retry st9 else .done st9 k

/-- Result of running the retry loop: the return code of the body (`none`
when the fuel ran out, i.e. the C loop is still running), the final state,
and the accepted nonce if one was accepted. -/
structure LoopRes where
  res : Option Err
  st : LoopSt
  k : Option Nat
deriving DecidableEq

/-- The unbounded retry loop of lines 59–92, with fuel. -/
def signLoop (o : Oracle) (key : DsaKey) (inB : List Nat) : Nat → LoopSt → LoopRes
  | 0, st => ⟨none, st, none⟩
  | fuel+1, st =>
    match signIter o key inB st with
    | .retry st1 => signLoop o key inB fuel st1
    | .fail e st1 k => ⟨some e, st1, k⟩
    | .done st1 k => ⟨some Err.CRYPT_OK, st1, some k⟩

/-- Caller-visible outcome of `dsa_sign_hash_raw`: return code (`none` when
the retry loop is still running after `fuel` passes), final contents of the
caller's `r` and `s`, the accepted nonce, the buffer lifecycle trace, and
the number of random-source draws consumed. -/
structure RawOut where
  res : Option Err
  r : Nat
  s : Nat
  k : Option Nat
  trace : List Ev
  randUsed : Nat
deriving DecidableEq

/-- Cleanup of the nonce buffer at the `ERRBUF` label (lines 95–99):
`zeromem` only under `LTC_CLEAN_STACK`, then `XFREE`. -/
def cleanupEv (cleanStack : Bool) : List Ev :=
  (if cleanStack then [Ev.zeroBuf] else []) ++ [Ev.freeBuf]

/-- `dsa_sign_hash_raw` (lines 29–101).  `cleanStack` is the build-time
`LTC_CLEAN_STACK` option; `r0`, `s0` are the incoming contents of the
caller-initialized `r` and `s`. -/
def dsa_sign_hash_raw (o : Oracle) (cleanStack : Bool) (fuel : Nat)
    (inB : List Nat) (r0 s0 : Nat) (key : DsaKey) : RawOut :=
  if key.type ≠ PK_PRIVATE then
    ⟨some Err.CRYPT_PK_NOT_PRIVATE, r0, s0, none, [], 0⟩
  else if LTC_MDSA_MAX_GROUP ≤ key.qord then
    ⟨some Err.CRYPT_INVALID_ARG, r0, s0, none, [], 0⟩
  else if o.mallocOk = false then
    ⟨some Err.CRYPT_MEM, r0, s0, none, [], 0⟩
  else if o.initRes ≠ Err.CRYPT_OK then
    ⟨some o.initRes, r0, s0, none, Ev.allocBuf :: cleanupEv cleanStack, 0⟩
  else
    let lr := signLoop o key inB fuel ⟨o.buf0, 0, 0, r0, s0⟩
    ⟨lr.res, lr.st.r, lr.st.s, lr.k,
      Ev.allocBuf :: (if lr.res.isSome then cleanupEv cleanStack else []),
      lr.st.ri⟩

/-- Big-endian byte string of `n` (most significant first, no leading
zeros), with fuel for the division recursion. -/
def beBytesF : Nat → Nat → List Nat
  | 0, _ => []
  | f+1, n => if n = 0 then [] else beBytesF f (n / 256) ++ [n % 256]

/-- Big-endian byte string of `n`. -/
def beBytes (n : Nat) : List Nat := beBytesF n n

/-- Byte content of an encoded unsigned integer (`0` encodes as one zero
byte). -/
def intBytes (n : Nat) : List Nat := if n = 0 then [0] else beBytes n

/-- Modelled from the spec: the binary envelope the missing DER encoder
produces for the signature — a self-describing sequence (tag 48) of two
unsigned integers (tag 2), `r` first and `s` second, each with an explicit
length field. -/
def encodeSig (r s : Nat) : List Nat :=
  48 :: (2 + (intBytes r).length + 2 + (intBytes s).length) ::
    2 :: (intBytes r).length ::
      (intBytes r ++ (2 :: (intBytes s).length :: intBytes s))

/-- Modelled from the spec: round-trip decoder of the envelope, recovering
the ordered pair of unsigned integers. -/
def decodeSig : List Nat → Option (Nat × Nat)
  | 48 :: _il :: 2 :: rl :: rest =>
    if rl ≤ rest.length then
      match rest.drop rl with
      | 2 :: sl :: sb => if sl = sb.length then some (beInt (rest.take rl), beInt sb) else none
      | _ => none
    else none
  | _ => none

/-- Modelled from the spec: `der_encode_sequence_multi` of the missing
encoder — fails with buffer-overflow, writing nothing, when the supplied
buffer is smaller than the encoding; otherwise writes the envelope. -/
def der_encode_sequence_multi (r s : Nat) (outSize : Nat) : Except Err (List Nat) :=
  if outSize < (encodeSig r s).length then .error Err.CRYPT_BUFFER_OVERFLOW
  else .ok (encodeSig r s)

/-- Caller-visible outcome of `dsa_sign_hash`: return code (`none` when the
inner loop is still running) and the bytes written into the caller's output
buffer (`none` when nothing was written). -/
structure SignOut where
  res : Option Err
  written : Option (List Nat)
deriving DecidableEq

/-- `dsa_sign_hash` (lines 112–140): init `r`,`s` (a failure is reported as
`CRYPT_MEM`, line 125), run `dsa_sign_hash_raw` on them, then DER-encode the
pair into the caller's buffer of size `outSize`. -/
def dsa_sign_hash (o : Oracle) (cleanStack : Bool) (fuel : Nat)
    (inB : List Nat) (outSize : Nat) (key : DsaKey) : SignOut :=
  if o.init2Res ≠ Err.CRYPT_OK then ⟨some Err.CRYPT_MEM, none⟩
  else
    let ro := dsa_sign_hash_raw o cleanStack fuel inB 0 0 key
    match ro.res with
    | some Err.CRYPT_OK =>
      match der_encode_sequence_multi ro.r ro.s outSize with
      | .error e => ⟨some e, none⟩
      | .ok bytes => ⟨some Err.CRYPT_OK, some bytes⟩
    | some e => ⟨some e, none⟩
    | none => ⟨none, none⟩

/-- A valid small DSA key for concrete runs: p = 23, q = 11 (order of g = 4
modulo 23), x = 3, group order one byte long. -/
def keyT : DsaKey := { type := PK_PRIVATE, qord := 1, p := 23, q := 11, g := 4, x := 3 }

/-- Oracle where everything succeeds and every draw yields the byte 5. -/
def oGood : Oracle :=
  { mallocOk := true, initRes := Err.CRYPT_OK, init2Res := Err.CRYPT_OK,
    buf0 := [], rand := fun _ => some [5], fault := fun _ => none }

theorem beInt_append_single (l : List Nat) (b : Nat) :
    beInt (l ++ [b]) = 256 * beInt l + b := by
  simp [beInt, List.foldl_append, Nat.mul_comm]

theorem beInt_beBytesF (f : Nat) : ∀ n, n ≤ f → beInt (beBytesF f n) = n := by
  induction f with
  | zero =>
    intro n hn
    interval_cases n
    simp [beBytesF, beInt]
  | succ f ih =>
    intro n hn
    by_cases h0 : n = 0
    · simp [beBytesF, h0, beInt]
    · have hlt : n / 256 < n := Nat.div_lt_self (Nat.pos_of_ne_zero h0) (by decide)
      have hle : n / 256 ≤ f := by omega
      simp only [beBytesF, h0, if_false]
      rw [beInt_append_single, ih (n / 256) hle]
      exact Nat.div_add_mod n 256

theorem beInt_intBytes (n : Nat) : beInt (intBytes n) = n := by
  by_cases h0 : n = 0
  · simp [intBytes, h0, beInt]
  · simp only [intBytes, h0, if_false, beBytes]
    exact beInt_beBytesF n n (Nat.le_refl n)

theorem invmod_spec (a n t : Nat) (h : invmod a n = some t) :
    a * t % n = 1 ∧ t < n := by
  have h1 := List.find?_some h
  have h2 := List.mem_of_find?_eq_some h
  exact ⟨by simpa using h1, List.mem_range.mp h2⟩

theorem invmod_isSome_of_coprime (a n : Nat) (hc : Nat.gcd a n = 1) (hn : 1 < n) :
    ∃ t, invmod a n = some t := by
  obtain ⟨b, hb⟩ := Nat.exists_mul_emod_eq_one_of_coprime hc hn
  have hmem : b % n ∈ List.range n := List.mem_range.mpr (Nat.mod_lt b (by omega))
  have hpred : a * (b % n) % n = 1 := by
    conv_lhs => rw [Nat.mul_mod, Nat.mod_mod_of_dvd b (dvd_refl n)]
    rw [← Nat.mul_mod]
    exact hb
  rcases hfind : invmod a n with _ | t
  · exfalso
    have := List.find?_eq_none.mp hfind (b % n) hmem
    simp [hpred] at this
  · exact ⟨t, rfl⟩

theorem engineStep_ok {α : Type} (o : Oracle) (i : Nat) (v : Except Err α) (a : α)
    (h : engineStep o i v = .ok a) : v = .ok a := by
  unfold engineStep at h
  split at h
  · split at h
    · exact h
    · exact absurd h (by simp)
  · exact h

theorem engineStep_error {α : Type} (o : Oracle) (i : Nat) (v : Except Err α) (e : Err)
    (h : engineStep o i v = .error e) : v = .error e ∨ e ≠ Err.CRYPT_OK := by
  unfold engineStep at h
  split at h
  · split at h
    · exact Or.inl h
    · right
      rename_i hne
      obtain rfl : _ = e := by simpa using h
      exact hne
  · exact Or.inl h

theorem engineStep_id {α : Type} (o : Oracle) (i : Nat) (v : Except Err α)
    (h : o.fault i = none) : engineStep o i v = v := by
  unfold engineStep
  rw [h]

theorem mp_invmod_ok (a n t : Nat) (h : mp_invmod a n = .ok t) : invmod a n = some t := by
  unfold mp_invmod at h
  split at h
  · rename_i t' ht'
    obtain rfl : t' = t := by simpa using h
    exact ht'
  · exact absurd h (by simp)

theorem mp_invmod_error (a n : Nat) (e : Err) (h : mp_invmod a n = .error e) :
    e = Err.CRYPT_INVALID_ARG := by
  unfold mp_invmod at h
  split at h
  · exact absurd h (by simp)
  · simpa using h.symm

theorem mp_exptmod_ok (b x m r : Nat) (h : mp_exptmod b x m = .ok r) :
    m ≠ 0 ∧ r = b ^ x % m := by
  unfold mp_exptmod at h
  split at h
  · exact absurd h (by simp)
  · rename_i hm
    exact ⟨hm, by simpa using h.symm⟩

theorem mp_exptmod_error (b x m : Nat) (e : Err) (h : mp_exptmod b x m = .error e) :
    e = Err.CRYPT_INVALID_ARG := by
  unfold mp_exptmod at h
  split at h
  · simpa using h.symm
  · exact absurd h (by simp)

theorem mp_mod_ok (a n r : Nat) (h : mp_mod a n = .ok r) : n ≠ 0 ∧ r = a % n := by
  unfold mp_mod at h
  split at h
  · exact absurd h (by simp)
  · rename_i hn
    exact ⟨hn, by simpa using h.symm⟩

theorem mp_mod_error (a n : Nat) (e : Err) (h : mp_mod a n = .error e) :
    e = Err.CRYPT_INVALID_ARG := by
  unfold mp_mod at h
  split at h
  · simpa using h.symm
  · exact absurd h (by simp)

theorem mp_mulmod_ok (a b n r : Nat) (h : mp_mulmod a b n = .ok r) :
    n ≠ 0 ∧ r = a * b % n := by
  unfold mp_mulmod at h
  split at h
  · exact absurd h (by simp)
  · rename_i hn
    exact ⟨hn, by simpa using h.symm⟩

theorem mp_mulmod_error (a b n : Nat) (e : Err) (h : mp_mulmod a b n = .error e) :
    e = Err.CRYPT_INVALID_ARG := by
  unfold mp_mulmod at h
  split at h
  · simpa using h.symm
  · exact absurd h (by simp)

/-- What a successfully finished pass of the loop body guarantees. -/
def IterDone (o : Oracle) (key : DsaKey) (inB : List Nat) (st st1 : LoopSt) (k : Nat) : Prop :=
  1 < k ∧ Nat.gcd k key.q = 1 ∧ key.q ≠ 0 ∧
  st1.ri = st.ri + 1 ∧
  (∀ bs, o.rand st.ri = some bs → key.qord ≤ bs.length → k = beInt (bs.take key.qord)) ∧
  ∃ kinv, invmod k key.q = some kinv ∧
    st1.r = key.g ^ k % key.p % key.q ∧ st1.r ≠ 0 ∧
    st1.s = (key.x * st1.r + beInt inB) * kinv % key.q ∧ st1.s ≠ 0

/-- Per-outcome specification of one pass of the loop body. -/
def IterOk (o : Oracle) (key : DsaKey) (inB : List Nat) (st : LoopSt) : IterRes → Prop
  | .retry st1 => st1.ri = st.ri + 1
  | .fail e st1 _k => e ≠ Err.CRYPT_OK ∧ st1.ri = st.ri + 1
  | .done st1 k => IterDone o key inB st st1 k

theorem signIter_spec (o : Oracle) (key : DsaKey) (inB : List Nat) (st : LoopSt) :
    IterOk o key inB st (signIter o key inB st) := by
  simp only [signIter]
  split
  · rename_i e st' heq
    rcases engineStep_error _ _ _ _ heq with hv | hne
    · exact absurd hv (by simp)
    · exact ⟨hne, rfl⟩
  · rename_i k heqRead
    split
    · exact rfl
    · rename_i hk1
      split
      · rename_i e heq
        rcases engineStep_error _ _ _ _ heq with hv | hne
        · exact absurd hv (by simp)
        · exact ⟨hne, rfl⟩
      · rename_i d heqGcd
        split
        · exact rfl
        · rename_i hd
          split
          · rename_i e heq
            rcases engineStep_error _ _ _ _ heq with hv | hne
            · exact ⟨by rw [mp_invmod_error _ _ _ hv]; decide, rfl⟩
            · exact ⟨hne, rfl⟩
          · rename_i kinv heqInv
            split
            · rename_i e heq
              rcases engineStep_error _ _ _ _ heq with hv | hne
              · exact ⟨by rw [mp_exptmod_error _ _ _ _ hv]; decide, rfl⟩
              · exact ⟨hne, rfl⟩
            · rename_i r1 heqExp
              split
              · rename_i e heq
                rcases engineStep_error _ _ _ _ heq with hv | hne
                · exact ⟨by rw [mp_mod_error _ _ _ hv]; decide, rfl⟩
                · exact ⟨hne, rfl⟩
              · rename_i r2 heqMod
                split
                · exact rfl
                · rename_i hr2
                  split
                  · rename_i e heq
                    rcases engineStep_error _ _ _ _ heq with hv | hne
                    · exact absurd hv (by simp)
                    · exact ⟨hne, rfl⟩
                  · rename_i hv heqH
                    split
                    · rename_i e heq
                      rcases engineStep_error _ _ _ _ heq with hv | hne
                      · exact absurd hv (by simp)
                      · exact ⟨hne, rfl⟩
                    · rename_i s1 heqMul
                      split
                      · rename_i e heq
                        rcases engineStep_error _ _ _ _ heq with hv | hne
                        · exact absurd hv (by simp)
                        · exact ⟨hne, rfl⟩
                      · rename_i s2 heqAdd
                        split
                        · rename_i e heq
                          rcases engineStep_error _ _ _ _ heq with hv | hne
                          · exact ⟨by rw [mp_mulmod_error _ _ _ _ hv]; decide, rfl⟩
                          · exact ⟨hne, rfl⟩
                        · rename_i s3 heqMulmod
                          split
                          · exact rfl
                          · rename_i hs3
                            -- the done branch
                            have hkv : beInt ((get_random_bytes o st.ri st.buf key.qord).take key.qord) = k := by
                              have := engineStep_ok _ _ _ _ heqRead
                              simpa using this
                            have hdv : Nat.gcd k key.q = d := by
                              have := engineStep_ok _ _ _ _ heqGcd
                              simpa using this
                            have hgcd : Nat.gcd k key.q = 1 := by
                              rw [hdv]
                              omega
                            have hinv : invmod k key.q = some kinv :=
                              mp_invmod_ok _ _ _ (engineStep_ok _ _ _ _ heqInv)
                            obtain ⟨hp0, hr1⟩ := mp_exptmod_ok _ _ _ _ (engineStep_ok _ _ _ _ heqExp)
                            obtain ⟨hq0, hrv2⟩ := mp_mod_ok _ _ _ (engineStep_ok _ _ _ _ heqMod)
                            have hhv : beInt inB = hv := by
                              have := engineStep_ok _ _ _ _ heqH
                              simpa using this
                            have hs1 : key.x * r2 = s1 := by
                              have := engineStep_ok _ _ _ _ heqMul
                              simpa using this
                            have hs2 : s1 + hv = s2 := by
                              have := engineStep_ok _ _ _ _ heqAdd
                              simpa using this
                            obtain ⟨_, hs3v⟩ := mp_mulmod_ok _ _ _ _ (engineStep_ok _ _ _ _ heqMulmod)
                            refine ⟨by omega, hgcd, hq0, rfl, ?_, kinv, hinv, ?_, hr2, ?_, hs3⟩
                            · intro bs hbs hlen
                              rw [← hkv]
                              unfold get_random_bytes
                              rw [hbs]
                              unfold writeBytes
                              rw [List.take_left' (by simp [List.length_take]; omega)]
                            · show r2 = key.g ^ k % key.p % key.q
                              rw [hrv2, hr1]
                            · show s3 = (key.x * r2 + beInt inB) * kinv % key.q
                              rw [hs3v, ← hs2, ← hs1, hhv]

/-- Holds when a loop-body pass did not take a `goto error` exit. -/
def NotFail : IterRes → Prop
  | .fail _ _ _ => False
  | _ => True

theorem signIter_no_fail (o : Oracle) (key : DsaKey) (inB : List Nat) (st : LoopSt)
    (hf : ∀ i, o.fault i = none) (hp : 0 < key.p) (hq1 : 1 < key.q) :
    NotFail (signIter o key inB st) := by
  have hstep : ∀ (α : Type) (i : Nat) (v : Except Err α), engineStep o i v = v :=
    fun α i v => engineStep_id o i v (hf i)
  have hp0 : ¬(key.p = 0) := by omega
  have hq0 : ¬(key.q = 0) := by omega
  simp only [signIter, hstep]
  simp only [mp_exptmod, mp_mod, mp_mulmod, if_neg hp0, if_neg hq0]
  split
  · trivial
  · rename_i hk1
    split
    · trivial
    · rename_i hd
      obtain ⟨t, ht⟩ := invmod_isSome_of_coprime _ key.q (not_not.mp hd) hq1
      simp only [mp_invmod, ht]
      split
      · trivial
      · split
        · trivial
        · trivial

theorem signLoop_ok (o : Oracle) (key : DsaKey) (inB : List Nat) :
    ∀ (fuel : Nat) (st : LoopSt),
    (signLoop o key inB fuel st).res = some Err.CRYPT_OK →
    ∃ k kinv,
      (signLoop o key inB fuel st).k = some k ∧
      1 < k ∧ Nat.gcd k key.q = 1 ∧ key.q ≠ 0 ∧
      invmod k key.q = some kinv ∧
      (signLoop o key inB fuel st).st.r = key.g ^ k % key.p % key.q ∧
      (signLoop o key inB fuel st).st.r ≠ 0 ∧
      (signLoop o key inB fuel st).st.s =
        (key.x * (signLoop o key inB fuel st).st.r + beInt inB) * kinv % key.q ∧
      (signLoop o key inB fuel st).st.s ≠ 0 ∧
      st.ri < (signLoop o key inB fuel st).st.ri ∧
      (∀ bs, o.rand ((signLoop o key inB fuel st).st.ri - 1) = some bs →
        key.qord ≤ bs.length → k = beInt (bs.take key.qord)) := by
  intro fuel
  induction fuel with
  | zero =>
    intro st h
    simp [signLoop] at h
  | succ fuel ih =>
    intro st h
    have hspec := signIter_spec o key inB st
    rcases hit : signIter o key inB st with st1 | ⟨e, st1, k⟩ | ⟨st1, k⟩ <;>
      rw [hit] at hspec <;> simp only [IterOk] at hspec <;>
      simp only [signLoop, hit] at h ⊢
    · obtain ⟨k, kinv, h1, h2, h3, h4, h5, h6, h7, h8, h9, h10, h11⟩ := ih st1 h
      exact ⟨k, kinv, h1, h2, h3, h4, h5, h6, h7, h8, h9, by omega, h11⟩
    · simp at h
      exact absurd h (Ne.symm hspec.1).symm
    · obtain ⟨hk1, hgcd, hq0, hri, hfresh, kinv, hinv, hr, hr0, hs, hs0⟩ := hspec
      refine ⟨k, kinv, rfl, hk1, hgcd, hq0, hinv, hr, hr0, hs, hs0, by omega, ?_⟩
      intro bs hbs hlen
      apply hfresh bs _ hlen
      rw [← hbs]
      congr 1
      omega

theorem signLoop_no_error (o : Oracle) (key : DsaKey) (inB : List Nat)
    (hf : ∀ i, o.fault i = none) (hp : 0 < key.p) (hq1 : 1 < key.q) :
    ∀ (fuel : Nat) (st : LoopSt) (e : Err),
    (signLoop o key inB fuel st).res = some e → e = Err.CRYPT_OK := by
  intro fuel
  induction fuel with
  | zero =>
    intro st e h
    simp [signLoop] at h
  | succ fuel ih =>
    intro st e h
    have hnf := signIter_no_fail o key inB st hf hp hq1
    rcases hit : signIter o key inB st with st1 | ⟨e', st1, k⟩ | ⟨st1, k⟩ <;>
      rw [hit] at hnf <;> simp only [signLoop, hit] at h
    · exact ih st1 e h
    · exact absurd hnf (by simp [NotFail])
    · simpa using h.symm

theorem raw_ok_spec (o : Oracle) (cs : Bool) (fuel : Nat) (inB : List Nat) (r0 s0 : Nat)
    (key : DsaKey)
    (h : (dsa_sign_hash_raw o cs fuel inB r0 s0 key).res = some Err.CRYPT_OK) :
    ∃ k kinv,
      (dsa_sign_hash_raw o cs fuel inB r0 s0 key).k = some k ∧
      1 < k ∧ Nat.gcd k key.q = 1 ∧ key.q ≠ 0 ∧
      invmod k key.q = some kinv ∧
      (dsa_sign_hash_raw o cs fuel inB r0 s0 key).r = key.g ^ k % key.p % key.q ∧
      (dsa_sign_hash_raw o cs fuel inB r0 s0 key).r ≠ 0 ∧
      (dsa_sign_hash_raw o cs fuel inB r0 s0 key).s =
        (key.x * (dsa_sign_hash_raw o cs fuel inB r0 s0 key).r + beInt inB) * kinv % key.q ∧
      (dsa_sign_hash_raw o cs fuel inB r0 s0 key).s ≠ 0 ∧
      1 ≤ (dsa_sign_hash_raw o cs fuel inB r0 s0 key).randUsed ∧
      (∀ bs, o.rand ((dsa_sign_hash_raw o cs fuel inB r0 s0 key).randUsed - 1) = some bs →
        key.qord ≤ bs.length → k = beInt (bs.take key.qord)) := by
  unfold dsa_sign_hash_raw at h ⊢
  split at h
  · simp at h
  · split at h
    · simp at h
    · split at h
      · simp at h
      · split at h
        · rename_i h4
          simp at h
          exact absurd h h4
        · rename_i h1 h2 h3 h4
          rw [if_neg h1, if_neg h2, if_neg h3, if_neg h4]
          dsimp only at h ⊢
          exact signLoop_ok o key inB fuel ⟨o.buf0, 0, 0, r0, s0⟩ h

theorem raw_no_error (o : Oracle) (cs : Bool) (fuel : Nat) (inB : List Nat) (r0 s0 : Nat)
    (key : DsaKey)
    (hf : ∀ i, o.fault i = none) (hm : o.mallocOk = true) (hi : o.initRes = Err.CRYPT_OK)
    (ht : key.type = PK_PRIVATE) (hqo : key.qord < LTC_MDSA_MAX_GROUP)
    (hp : 0 < key.p) (hq1 : 1 < key.q) :
    (dsa_sign_hash_raw o cs fuel inB r0 s0 key).res = some Err.CRYPT_OK ∨
    (dsa_sign_hash_raw o cs fuel inB r0 s0 key).res = none := by
  unfold dsa_sign_hash_raw
  rw [if_neg (by simp [ht]), if_neg (by omega), if_neg (by simp [hm]), if_neg (by simp [hi])]
  dsimp only
  rcases hres : (signLoop o key inB fuel ⟨o.buf0, 0, 0, r0, s0⟩).res with _ | e
  · exact Or.inr rfl
  · have he := signLoop_no_error o key inB hf hp hq1 fuel ⟨o.buf0, 0, 0, r0, s0⟩ e hres
    subst he
    exact Or.inl rfl

theorem raw_trace_cleanup (o : Oracle) (cs : Bool) (fuel : Nat) (inB : List Nat)
    (r0 s0 : Nat) (key : DsaKey)
    (halloc : Ev.allocBuf ∈ (dsa_sign_hash_raw o cs fuel inB r0 s0 key).trace)
    (hsome : (dsa_sign_hash_raw o cs fuel inB r0 s0 key).res.isSome) :
    (dsa_sign_hash_raw o cs fuel inB r0 s0 key).trace = Ev.allocBuf :: cleanupEv cs := by
  by_cases h1 : key.type ≠ PK_PRIVATE
  · unfold dsa_sign_hash_raw at halloc
    rw [if_pos h1] at halloc
    simp at halloc
  · by_cases h2 : LTC_MDSA_MAX_GROUP ≤ key.qord
    · unfold dsa_sign_hash_raw at halloc
      rw [if_neg h1, if_pos h2] at halloc
      simp at halloc
    · by_cases h3 : o.mallocOk = false
      · unfold dsa_sign_hash_raw at halloc
        rw [if_neg h1, if_neg h2, if_pos h3] at halloc
        simp at halloc
      · by_cases h4 : o.initRes ≠ Err.CRYPT_OK
        · unfold dsa_sign_hash_raw
          rw [if_neg h1, if_neg h2, if_neg h3, if_pos h4]
        · unfold dsa_sign_hash_raw at hsome ⊢
          rw [if_neg h1, if_neg h2, if_neg h3, if_neg h4] at hsome ⊢
          dsimp only at hsome ⊢
          rw [if_pos hsome]

theorem decode_encode (r s : Nat) : decodeSig (encodeSig r s) = some (r, s) := by
  have hlen : (intBytes r).length ≤ (intBytes r ++ (2 :: (intBytes s).length :: intBytes s)).length := by
    simp
  unfold encodeSig decodeSig
  simp only [List.take_left, List.drop_left, if_pos hlen, List.length_cons, beInt_intBytes]
  simp

theorem sign_hash_spec (o : Oracle) (cs : Bool) (fuel : Nat) (inB : List Nat)
    (outSize : Nat) (key : DsaKey) :
    (o.init2Res ≠ Err.CRYPT_OK ∧
      dsa_sign_hash o cs fuel inB outSize key = ⟨some Err.CRYPT_MEM, none⟩) ∨
    (o.init2Res = Err.CRYPT_OK ∧
      (dsa_sign_hash_raw o cs fuel inB 0 0 key).res = none ∧
      dsa_sign_hash o cs fuel inB outSize key = ⟨none, none⟩) ∨
    (o.init2Res = Err.CRYPT_OK ∧
      (∃ e, (dsa_sign_hash_raw o cs fuel inB 0 0 key).res = some e ∧ e ≠ Err.CRYPT_OK ∧
        dsa_sign_hash o cs fuel inB outSize key = ⟨some e, none⟩)) ∨
    (o.init2Res = Err.CRYPT_OK ∧
      (dsa_sign_hash_raw o cs fuel inB 0 0 key).res = some Err.CRYPT_OK ∧
      ((outSize < (encodeSig (dsa_sign_hash_raw o cs fuel inB 0 0 key).r
          (dsa_sign_hash_raw o cs fuel inB 0 0 key).s).length ∧
        dsa_sign_hash o cs fuel inB outSize key = ⟨some Err.CRYPT_BUFFER_OVERFLOW, none⟩) ∨
       (¬ outSize < (encodeSig (dsa_sign_hash_raw o cs fuel inB 0 0 key).r
          (dsa_sign_hash_raw o cs fuel inB 0 0 key).s).length ∧
        dsa_sign_hash o cs fuel inB outSize key =
          ⟨some Err.CRYPT_OK,
           some (encodeSig (dsa_sign_hash_raw o cs fuel inB 0 0 key).r
             (dsa_sign_hash_raw o cs fuel inB 0 0 key).s)⟩))) := by
  by_cases hi : o.init2Res ≠ Err.CRYPT_OK
  · left
    refine ⟨hi, ?_⟩
    unfold dsa_sign_hash
    rw [if_pos hi]
  · right
    have hi' : o.init2Res = Err.CRYPT_OK := not_not.mp hi
    unfold dsa_sign_hash
    rw [if_neg hi]
    dsimp only
    rcases hres : (dsa_sign_hash_raw o cs fuel inB 0 0 key).res with _ | e
    · left
      exact ⟨hi', rfl, rfl⟩
    · right
      cases e with
      | CRYPT_OK =>
        right
        refine ⟨hi', rfl, ?_⟩
        unfold der_encode_sequence_multi
        by_cases ho : outSize < (encodeSig (dsa_sign_hash_raw o cs fuel inB 0 0 key).r
            (dsa_sign_hash_raw o cs fuel inB 0 0 key).s).length
        · rw [if_pos ho]
          exact Or.inl ⟨ho, rfl⟩
        · rw [if_neg ho]
          exact Or.inr ⟨ho, rfl⟩
      | CRYPT_INVALID_ARG => exact Or.inl ⟨hi', Err.CRYPT_INVALID_ARG, rfl, by decide, rfl⟩
      | CRYPT_PK_NOT_PRIVATE => exact Or.inl ⟨hi', Err.CRYPT_PK_NOT_PRIVATE, rfl, by decide, rfl⟩
      | CRYPT_MEM => exact Or.inl ⟨hi', Err.CRYPT_MEM, rfl, by decide, rfl⟩
      | CRYPT_BUFFER_OVERFLOW => exact Or.inl ⟨hi', Err.CRYPT_BUFFER_OVERFLOW, rfl, by decide, rfl⟩
      | CRYPT_ENGINE_ERR c => exact Or.inl ⟨hi', Err.CRYPT_ENGINE_ERR c, rfl, by simp, rfl⟩

/-- Oracle whose only difference from `oGood` is that every draw yields the
single byte 13 (so `k = 13 > q = 11` for `keyT`). -/
def o13 : Oracle := { oGood with rand := fun _ => some [13] }

/-- Oracle where the random source fails on every draw; the uninitialized
malloc'ed buffer happens to contain the byte 5. -/
def oNone : Oracle := { oGood with rand := fun _ => none, buf0 := [5] }

/-- Oracle whose first draw yields the degenerate byte 1 (`k = 1`) and whose
later draws yield the byte 5. -/
def oRetry : Oracle := { oGood with rand := fun n => some [if n = 0 then 1 else 5] }

/-- A private key whose group order is `LTC_MDSA_MAX_GROUP` bytes long. -/
def keyBig : DsaKey := { keyT with qord := LTC_MDSA_MAX_GROUP }

/-- The public counterpart of `keyT`. -/
def keyPub : DsaKey := { keyT with type := PK_PUBLIC }

/-- A key that is both non-private and oversized. -/
def keyPubBig : DsaKey := { keyT with type := PK_PUBLIC, qord := 600 }

/-- Claim C1 (counterexample): with `q = 11` (one byte) and a draw of the
single byte 13, the loop accepts `k = 13` and the whole signing run
succeeds, yet `k < q` is false — the code checks only `k > 1` and
`gcd(k, q) = 1`, never an upper bound. -/
theorem C1_counterexample :
    (dsa_sign_hash_raw o13 true 2 [2] 0 0 keyT).res = some Err.CRYPT_OK ∧
    (dsa_sign_hash_raw o13 true 2 [2] 0 0 keyT).k = some 13 ∧
    ¬ (13 < keyT.q) := by decide

/-- Claim C1 (amended): every `k` accepted by the nonce loop of a successful
`dsa_sign_hash_raw` run satisfies `1 < k` and `gcd(k, q) = 1` (the gcd check
is performed for every `q`, prime or not); no upper bound `k < q` is
enforced. -/
theorem C1_accepted_nonce_checks (o : Oracle) (cs : Bool) (fuel : Nat) (inB : List Nat)
    (r0 s0 : Nat) (key : DsaKey)
    (h : (dsa_sign_hash_raw o cs fuel inB r0 s0 key).res = some Err.CRYPT_OK) :
    ∃ k, (dsa_sign_hash_raw o cs fuel inB r0 s0 key).k = some k ∧
      1 < k ∧ Nat.gcd k key.q = 1 := by
  obtain ⟨k, _, hk, hk1, hgcd, _⟩ := raw_ok_spec o cs fuel inB r0 s0 key h
  exact ⟨k, hk, hk1, hgcd⟩

/-- Claim C1 (witness): the amended theorem applied to a concrete successful
run. -/
theorem C1_witness :
    ∃ k, (dsa_sign_hash_raw oGood true 2 [2] 0 0 keyT).k = some k ∧
      1 < k ∧ Nat.gcd k keyT.q = 1 :=
  C1_accepted_nonce_checks oGood true 2 [2] 0 0 keyT (by decide)

/-- Claim C2 (counterexample): the random source fails on every draw
(`rand = none`), yet the run returns `CRYPT_OK`, deriving the signature from
the unfilled buffer content (byte 5): the `void` call site of
`get_random_bytes` has no failure to check. -/
theorem C2_counterexample :
    oNone.rand 0 = none ∧
    (dsa_sign_hash_raw oNone true 2 [2] 0 0 keyT).res = some Err.CRYPT_OK ∧
    (dsa_sign_hash_raw oNone true 2 [2] 0 0 keyT).k = some 5 :=
  ⟨rfl, by decide, by decide⟩

/-- Claim C2 (amended): a failure of the random source is never propagated:
under a fault-free arithmetic engine and a valid private key, the run
returns `CRYPT_OK` (or is still looping), for every behaviour of the random
source including total failure — the code draws into the buffer and
proceeds unconditionally. -/
theorem C2_fill_failure_not_propagated (o : Oracle) (cs : Bool) (fuel : Nat)
    (inB : List Nat) (r0 s0 : Nat) (key : DsaKey)
    (hf : ∀ i, o.fault i = none) (hm : o.mallocOk = true) (hi : o.initRes = Err.CRYPT_OK)
    (ht : key.type = PK_PRIVATE) (hqo : key.qord < LTC_MDSA_MAX_GROUP)
    (hp : 0 < key.p) (hq1 : 1 < key.q) :
    (dsa_sign_hash_raw o cs fuel inB r0 s0 key).res = some Err.CRYPT_OK ∨
    (dsa_sign_hash_raw o cs fuel inB r0 s0 key).res = none :=
  raw_no_error o cs fuel inB r0 s0 key hf hm hi ht hqo hp hq1

/-- Claim C2 (witness): the amended theorem applied to the oracle whose
random source always fails. -/
theorem C2_witness :
    (dsa_sign_hash_raw oNone true 2 [2] 0 0 keyT).res = some Err.CRYPT_OK ∨
    (dsa_sign_hash_raw oNone true 2 [2] 0 0 keyT).res = none :=
  C2_fill_failure_not_propagated oNone true 2 [2] 0 0 keyT (fun _ => rfl) rfl rfl rfl
    (by decide) (by decide) (by decide)

/-- Claim C3: whenever `dsa_sign_hash_raw` returns `CRYPT_OK`, the returned
pair satisfies `0 < r < q` and `0 < s < q`, and `r = (g^k mod p) mod q` for
the accepted nonce `k`. -/
theorem C3_components_in_range (o : Oracle) (cs : Bool) (fuel : Nat) (inB : List Nat)
    (r0 s0 : Nat) (key : DsaKey)
    (h : (dsa_sign_hash_raw o cs fuel inB r0 s0 key).res = some Err.CRYPT_OK) :
    0 < (dsa_sign_hash_raw o cs fuel inB r0 s0 key).r ∧
    (dsa_sign_hash_raw o cs fuel inB r0 s0 key).r < key.q ∧
    0 < (dsa_sign_hash_raw o cs fuel inB r0 s0 key).s ∧
    (dsa_sign_hash_raw o cs fuel inB r0 s0 key).s < key.q ∧
    ∃ k, (dsa_sign_hash_raw o cs fuel inB r0 s0 key).k = some k ∧
      (dsa_sign_hash_raw o cs fuel inB r0 s0 key).r = key.g ^ k % key.p % key.q := by
  obtain ⟨k, kinv, hk, _, _, hq0, _, hr, hr0, hs, hs0, _⟩ := raw_ok_spec o cs fuel inB r0 s0 key h
  refine ⟨Nat.pos_of_ne_zero hr0, ?_, Nat.pos_of_ne_zero hs0, ?_, k, hk, hr⟩
  · rw [hr]
    exact Nat.mod_lt _ (Nat.pos_of_ne_zero hq0)
  · rw [hs]
    exact Nat.mod_lt _ (Nat.pos_of_ne_zero hq0)

/-- Claim C3 (witness): the theorem applied to a concrete successful run. -/
theorem C3_witness :
    0 < (dsa_sign_hash_raw oGood true 2 [2] 0 0 keyT).r ∧
    (dsa_sign_hash_raw oGood true 2 [2] 0 0 keyT).r < keyT.q ∧
    0 < (dsa_sign_hash_raw oGood true 2 [2] 0 0 keyT).s ∧
    (dsa_sign_hash_raw oGood true 2 [2] 0 0 keyT).s < keyT.q ∧
    ∃ k, (dsa_sign_hash_raw oGood true 2 [2] 0 0 keyT).k = some k ∧
      (dsa_sign_hash_raw oGood true 2 [2] 0 0 keyT).r = keyT.g ^ k % keyT.p % keyT.q :=
  C3_components_in_range oGood true 2 [2] 0 0 keyT (by decide)

/-- Claim C4: on success, `s = (h + x·r) · k⁻¹ mod q`, where `h` is the
big-endian value of the entire digest (no truncation), and `k⁻¹` is the
modular inverse of the accepted nonce modulo `q`. -/
theorem C4_s_equation (o : Oracle) (cs : Bool) (fuel : Nat) (inB : List Nat)
    (r0 s0 : Nat) (key : DsaKey)
    (h : (dsa_sign_hash_raw o cs fuel inB r0 s0 key).res = some Err.CRYPT_OK) :
    ∃ k kinv, (dsa_sign_hash_raw o cs fuel inB r0 s0 key).k = some k ∧
      k * kinv % key.q = 1 ∧
      (dsa_sign_hash_raw o cs fuel inB r0 s0 key).s =
        (beInt inB + key.x * (dsa_sign_hash_raw o cs fuel inB r0 s0 key).r) * kinv % key.q := by
  obtain ⟨k, kinv, hk, _, _, _, hinv, _, _, hs, _⟩ := raw_ok_spec o cs fuel inB r0 s0 key h
  exact ⟨k, kinv, hk, (invmod_spec k key.q kinv hinv).1,
    hs.trans (by rw [Nat.add_comm])⟩

/-- Claim C4 (witness): the theorem applied to a concrete successful run. -/
theorem C4_witness :
    ∃ k kinv, (dsa_sign_hash_raw oGood true 2 [2] 0 0 keyT).k = some k ∧
      k * kinv % keyT.q = 1 ∧
      (dsa_sign_hash_raw oGood true 2 [2] 0 0 keyT).s =
        (beInt [2] + keyT.x * (dsa_sign_hash_raw oGood true 2 [2] 0 0 keyT).r) * kinv % keyT.q :=
  C4_s_equation oGood true 2 [2] 0 0 keyT (by decide)

/-- Claim C5 (counterexample): a private key whose group-order byte length
reaches the bound yields `CRYPT_INVALID_ARG` — the very same error code the
invalid-argument (null-input) checks use — not an error kind distinct from
it; no `ParameterTooLarge` code exists in the source. -/
theorem C5_counterexample :
    dsa_sign_hash_raw oGood true 2 [2] 0 0 keyBig =
      ⟨some Err.CRYPT_INVALID_ARG, 0, 0, none, [], 0⟩ := by decide

/-- Claim C5 (amended): a non-private key always yields
`CRYPT_PK_NOT_PRIVATE` with no random bytes consumed and no other side
effects; a private key with group-order byte length at or above the bound
yields `CRYPT_INVALID_ARG` (the same code as the invalid-argument checks,
not a distinct kind) before any allocation, random generation or numeric
work. -/
theorem C5_validation_errors (o : Oracle) (cs : Bool) (fuel : Nat) (inB : List Nat)
    (r0 s0 : Nat) (key : DsaKey) :
    (key.type ≠ PK_PRIVATE →
      dsa_sign_hash_raw o cs fuel inB r0 s0 key =
        ⟨some Err.CRYPT_PK_NOT_PRIVATE, r0, s0, none, [], 0⟩) ∧
    (key.type = PK_PRIVATE → LTC_MDSA_MAX_GROUP ≤ key.qord →
      dsa_sign_hash_raw o cs fuel inB r0 s0 key =
        ⟨some Err.CRYPT_INVALID_ARG, r0, s0, none, [], 0⟩) := by
  constructor
  · intro h1
    unfold dsa_sign_hash_raw
    rw [if_pos h1]
  · intro h1 h2
    unfold dsa_sign_hash_raw
    rw [if_neg (by simp [h1]), if_pos h2]

/-- Claim C5 (witness): the amended theorem applied to a concrete
non-private key and to a concrete oversized private key. -/
theorem C5_witness :
    dsa_sign_hash_raw oGood true 2 [2] 0 0 keyPub =
      ⟨some Err.CRYPT_PK_NOT_PRIVATE, 0, 0, none, [], 0⟩ ∧
    dsa_sign_hash_raw oGood true 2 [2] 0 0 keyBig =
      ⟨some Err.CRYPT_INVALID_ARG, 0, 0, none, [], 0⟩ :=
  ⟨(C5_validation_errors oGood true 2 [2] 0 0 keyPub).1 (by decide),
   (C5_validation_errors oGood true 2 [2] 0 0 keyBig).2 (by decide) (by decide)⟩

/-- Claim C6 (counterexample): without the `LTC_CLEAN_STACK` build option
the successful run allocates and frees the nonce buffer but never zeroes
it — the `zeromem` call is compiled only under that option. -/
theorem C6_counterexample :
    (dsa_sign_hash_raw oGood false 2 [2] 0 0 keyT).res = some Err.CRYPT_OK ∧
    Ev.allocBuf ∈ (dsa_sign_hash_raw oGood false 2 [2] 0 0 keyT).trace ∧
    Ev.zeroBuf ∉ (dsa_sign_hash_raw oGood false 2 [2] 0 0 keyT).trace := by decide

/-- Claim C6 (amended): when `LTC_CLEAN_STACK` is active, every exit path
reached after the nonce buffer was allocated — success, engine failure and
init failure alike — zeroes the buffer and then frees it. -/
theorem C6_zeroize_under_clean_stack (o : Oracle) (fuel : Nat) (inB : List Nat)
    (r0 s0 : Nat) (key : DsaKey)
    (halloc : Ev.allocBuf ∈ (dsa_sign_hash_raw o true fuel inB r0 s0 key).trace)
    (hsome : (dsa_sign_hash_raw o true fuel inB r0 s0 key).res.isSome) :
    (dsa_sign_hash_raw o true fuel inB r0 s0 key).trace =
      [Ev.allocBuf, Ev.zeroBuf, Ev.freeBuf] :=
  raw_trace_cleanup o true fuel inB r0 s0 key halloc hsome

/-- Claim C6 (witness): the amended theorem applied to a concrete successful
run with `LTC_CLEAN_STACK` active. -/
theorem C6_witness :
    (dsa_sign_hash_raw oGood true 2 [2] 0 0 keyT).trace =
      [Ev.allocBuf, Ev.zeroBuf, Ev.freeBuf] :=
  C6_zeroize_under_clean_stack oGood 2 [2] 0 0 keyT (by decide) (by decide)

/-- Claim C7: signing is all-or-nothing at the public surface: whenever
`dsa_sign_hash` does not return `CRYPT_OK` nothing is written into the
caller's buffer, and an output buffer smaller than the encoding makes the
call fail with the distinct `CRYPT_BUFFER_OVERFLOW` while writing
nothing. -/
theorem C7_all_or_nothing (o : Oracle) (cs : Bool) (fuel : Nat) (inB : List Nat)
    (outSize : Nat) (key : DsaKey) :
    ((dsa_sign_hash o cs fuel inB outSize key).res ≠ some Err.CRYPT_OK →
      (dsa_sign_hash o cs fuel inB outSize key).written = none) ∧
    (o.init2Res = Err.CRYPT_OK →
      (dsa_sign_hash_raw o cs fuel inB 0 0 key).res = some Err.CRYPT_OK →
      outSize < (encodeSig (dsa_sign_hash_raw o cs fuel inB 0 0 key).r
        (dsa_sign_hash_raw o cs fuel inB 0 0 key).s).length →
      (dsa_sign_hash o cs fuel inB outSize key).res = some Err.CRYPT_BUFFER_OVERFLOW ∧
      (dsa_sign_hash o cs fuel inB outSize key).written = none) := by
  rcases sign_hash_spec o cs fuel inB outSize key with
    ⟨hi, heq⟩ | ⟨hi, hraw, heq⟩ | ⟨hi, e, hraw, hne, heq⟩ | ⟨hi, hraw, hcase⟩
  · rw [heq]
    exact ⟨fun _ => rfl, fun hi2 => absurd hi2 hi⟩
  · rw [heq]
    refine ⟨fun _ => rfl, fun _ hr => absurd hr ?_⟩
    rw [hraw]
    simp
  · rw [heq]
    refine ⟨fun _ => rfl, fun _ hr _ => ?_⟩
    rw [hraw] at hr
    obtain rfl : e = Err.CRYPT_OK := by simpa using hr
    exact absurd rfl hne
  · rcases hcase with ⟨ho, heq⟩ | ⟨ho, heq⟩
    · rw [heq]
      exact ⟨fun _ => rfl, fun _ _ _ => ⟨rfl, rfl⟩⟩
    · rw [heq]
      exact ⟨fun hne => absurd rfl hne, fun _ _ hosz => absurd hosz ho⟩

/-- Claim C7 (witness): the theorem applied to a failing call (non-private
key) and to a too-small output buffer. -/
theorem C7_witness :
    (dsa_sign_hash oGood true 2 [2] 20 keyPub).written = none ∧
    ((dsa_sign_hash oGood true 2 [2] 0 keyT).res = some Err.CRYPT_BUFFER_OVERFLOW ∧
     (dsa_sign_hash oGood true 2 [2] 0 keyT).written = none) :=
  ⟨(C7_all_or_nothing oGood true 2 [2] 20 keyPub).1 (by decide),
   (C7_all_or_nothing oGood true 2 [2] 0 keyT).2 rfl (by decide) (by decide)⟩

/-- Claim C8: degenerate numeric outcomes (`k ≤ 1`, `gcd(k,q) ≠ 1`, `r = 0`,
`s = 0`) never surface as an error: with a fault-free engine and a valid
private key the run only returns `CRYPT_OK` (or keeps looping), and the
nonce of a successful run is the big-endian value of the bytes of the most
recent random draw — every retry draws a fresh `k`. -/
theorem C8_degenerate_retry (o : Oracle) (cs : Bool) (fuel : Nat) (inB : List Nat)
    (r0 s0 : Nat) (key : DsaKey)
    (hf : ∀ i, o.fault i = none) (hm : o.mallocOk = true) (hi : o.initRes = Err.CRYPT_OK)
    (ht : key.type = PK_PRIVATE) (hqo : key.qord < LTC_MDSA_MAX_GROUP)
    (hp : 0 < key.p) (hq1 : 1 < key.q)
    (hr : ∀ n, ∃ bs, o.rand n = some bs ∧ key.qord ≤ bs.length) :
    ((dsa_sign_hash_raw o cs fuel inB r0 s0 key).res = some Err.CRYPT_OK ∨
     (dsa_sign_hash_raw o cs fuel inB r0 s0 key).res = none) ∧
    ((dsa_sign_hash_raw o cs fuel inB r0 s0 key).res = some Err.CRYPT_OK →
      1 ≤ (dsa_sign_hash_raw o cs fuel inB r0 s0 key).randUsed ∧
      ∃ bs, o.rand ((dsa_sign_hash_raw o cs fuel inB r0 s0 key).randUsed - 1) = some bs ∧
        (dsa_sign_hash_raw o cs fuel inB r0 s0 key).k = some (beInt (bs.take key.qord))) := by
  refine ⟨raw_no_error o cs fuel inB r0 s0 key hf hm hi ht hqo hp hq1, ?_⟩
  intro h
  obtain ⟨k, kinv, hk, _, _, _, _, _, _, _, _, hru, hfresh⟩ :=
    raw_ok_spec o cs fuel inB r0 s0 key h
  obtain ⟨bs, hbs, hlen⟩ := hr ((dsa_sign_hash_raw o cs fuel inB r0 s0 key).randUsed - 1)
  refine ⟨hru, bs, hbs, ?_⟩
  rw [hk, hfresh bs hbs hlen]

/-- Claim C8 (witness): the theorem applied to the oracle whose first draw
forces the degenerate `k = 1`; the run retries invisibly, consumes a second
draw, and succeeds with the fresh nonce of that draw. -/
theorem C8_witness :
    ((dsa_sign_hash_raw oRetry true 3 [2] 0 0 keyT).res = some Err.CRYPT_OK ∨
     (dsa_sign_hash_raw oRetry true 3 [2] 0 0 keyT).res = none) ∧
    ((dsa_sign_hash_raw oRetry true 3 [2] 0 0 keyT).res = some Err.CRYPT_OK →
      1 ≤ (dsa_sign_hash_raw oRetry true 3 [2] 0 0 keyT).randUsed ∧
      ∃ bs, oRetry.rand ((dsa_sign_hash_raw oRetry true 3 [2] 0 0 keyT).randUsed - 1) = some bs ∧
        (dsa_sign_hash_raw oRetry true 3 [2] 0 0 keyT).k = some (beInt (bs.take keyT.qord))) :=
  C8_degenerate_retry oRetry true 3 [2] 0 0 keyT (fun _ => rfl) rfl rfl rfl
    (by decide) (by decide) (by decide)
    (fun n => ⟨[if n = 0 then 1 else 5], rfl, by simp [keyT]⟩)

/-- Claim C9: a successful `dsa_sign_hash` writes exactly the envelope of
the `(r, s)` pair produced by the inner `dsa_sign_hash_raw` call, `r` first
and `s` second, and decoding that output recovers exactly that pair. -/
theorem C9_encode_roundtrip (o : Oracle) (cs : Bool) (fuel : Nat) (inB : List Nat)
    (outSize : Nat) (key : DsaKey)
    (h : (dsa_sign_hash o cs fuel inB outSize key).res = some Err.CRYPT_OK) :
    (dsa_sign_hash_raw o cs fuel inB 0 0 key).res = some Err.CRYPT_OK ∧
    (dsa_sign_hash o cs fuel inB outSize key).written =
      some (encodeSig (dsa_sign_hash_raw o cs fuel inB 0 0 key).r
        (dsa_sign_hash_raw o cs fuel inB 0 0 key).s) ∧
    decodeSig (encodeSig (dsa_sign_hash_raw o cs fuel inB 0 0 key).r
        (dsa_sign_hash_raw o cs fuel inB 0 0 key).s) =
      some ((dsa_sign_hash_raw o cs fuel inB 0 0 key).r,
        (dsa_sign_hash_raw o cs fuel inB 0 0 key).s) := by
  rcases sign_hash_spec o cs fuel inB outSize key with
    ⟨hi, heq⟩ | ⟨hi, hraw, heq⟩ | ⟨hi, e, hraw, hne, heq⟩ | ⟨hi, hraw, hcase⟩
  · rw [heq] at h
    simp at h
  · rw [heq] at h
    simp at h
  · rw [heq] at h
    obtain rfl : e = Err.CRYPT_OK := by simpa using h
    exact absurd rfl hne
  · rcases hcase with ⟨ho, heq⟩ | ⟨ho, heq⟩
    · rw [heq] at h
      simp at h
    · rw [heq]
      exact ⟨hraw, rfl, decode_encode _ _⟩

/-- Claim C9 (witness): the theorem applied to a concrete successful call. -/
theorem C9_witness :
    (dsa_sign_hash_raw oGood true 2 [2] 0 0 keyT).res = some Err.CRYPT_OK ∧
    (dsa_sign_hash oGood true 2 [2] 20 keyT).written =
      some (encodeSig (dsa_sign_hash_raw oGood true 2 [2] 0 0 keyT).r
        (dsa_sign_hash_raw oGood true 2 [2] 0 0 keyT).s) ∧
    decodeSig (encodeSig (dsa_sign_hash_raw oGood true 2 [2] 0 0 keyT).r
        (dsa_sign_hash_raw oGood true 2 [2] 0 0 keyT).s) =
      some ((dsa_sign_hash_raw oGood true 2 [2] 0 0 keyT).r,
        (dsa_sign_hash_raw oGood true 2 [2] 0 0 keyT).s) :=
  C9_encode_roundtrip oGood true 2 [2] 20 keyT (by decide)

/-- Claim C10: the private-type check precedes the group-order-size check:
every non-private key yields `CRYPT_PK_NOT_PRIVATE`, whatever its `qord`
(in particular when it is also at or above the bound). -/
theorem C10_type_check_first (o : Oracle) (cs : Bool) (fuel : Nat) (inB : List Nat)
    (r0 s0 : Nat) (key : DsaKey) (h : key.type ≠ PK_PRIVATE) :
    (dsa_sign_hash_raw o cs fuel inB r0 s0 key).res = some Err.CRYPT_PK_NOT_PRIVATE := by
  unfold dsa_sign_hash_raw
  rw [if_pos h]

/-- Claim C10 (witness): the theorem applied to a key that is both
non-private and oversized. -/
theorem C10_witness :
    keyPubBig.type ≠ PK_PRIVATE ∧ LTC_MDSA_MAX_GROUP ≤ keyPubBig.qord ∧
    (dsa_sign_hash_raw oGood true 2 [2] 0 0 keyPubBig).res = some Err.CRYPT_PK_NOT_PRIVATE :=
  ⟨by decide, by decide, C10_type_check_first oGood true 2 [2] 0 0 keyPubBig (by decide)⟩
